import Mathlib

/-!
Shallow embedding of `demo/memory-lab/app/src/main/cpp/native_memory_demo.cpp`:
a native allocation registry holding a process-wide vector of block
descriptors, with three operations (bulk allocate, bulk release, stats).

Modelling choices:
* A pointer (`void*`) is `Option Nat`: `none` is the null pointer, `some a`
  a non-null address `a`.  `mmap`/`malloc` never return a non-null failure
  value other than `MAP_FAILED` (converted to null by the code), so a
  successful primitive call is modelled as returning an arbitrary non-null
  address chosen by an oracle.
* The global mutable state `g_blocks` becomes explicit state passing: each
  JNI function takes the registry before the call and returns it after.
* The outcome of the underlying allocation primitives (`mmap`, `malloc`) is
  an oracle `AllocPrims`, indexed by the loop index of the attempt, so both
  all-success and failing executions can be expressed.
* Side effects on memory (the deallocation primitives invoked by
  `free_block`, the primitive calls made by the allocation loop) are
  recorded as explicit call traces, so claims about which primitive is
  invoked are statable.
* `size_t` byte counts and the `jlong` return values are idealized as
  `Nat` / `Int`: every realistic total is far below 2^63, where the
  `static_cast<jlong>` is value-preserving.
* `std::to_string(double)` formats with six fractional digits; the double
  `bytes / (1024.0 * 1024.0)` is exact for all realistic byte totals
  (below 2^53), so the field is modelled as correctly rounding the exact
  rational `bytes / 2^20` to six fractional digits, ties to even.
-/

/-- `struct NativeBlock { void* ptr; size_t size; bool use_mmap; }`. -/
structure NativeBlock where
  ptr : Option Nat
  size : Nat
  use_mmap : Bool
deriving DecidableEq

/-- The registry type of the global `std::vector<NativeBlock> g_blocks`. -/
abbrev Registry := List NativeBlock

/-- `total_allocated_bytes()`: folds `total += block.size` over the vector. -/
def total_allocated_bytes (blocks : Registry) : Nat :=
  blocks.foldl (fun total block => total + block.size) 0

/-- Result of the `mmap` primitive: the failure sentinel `MAP_FAILED` or an
address. -/
inductive MmapResult where
  | MAP_FAILED
  | addr (a : Nat)
deriving DecidableEq

/-- A deallocation primitive call made by the release path. -/
inductive FreeCall where
  | munmapCall (a : Nat) (size : Nat)
  | freeCall (a : Nat)
deriving DecidableEq

/-- An allocation primitive call made by the allocation loop. -/
inductive AllocCall where
  | mmapCall (size : Nat)
  | mallocCall (size : Nat)
deriving DecidableEq

/-- Oracle for the outcome of the two allocation primitives, indexed by the
loop index of the attempt and the requested size. `malloc_prim` returning
`none` is `malloc` returning null. -/
structure AllocPrims where
  mmap_prim : Nat → Nat → MmapResult
  malloc_prim : Nat → Nat → Option Nat

/-- All underlying allocations succeed (no `MAP_FAILED`, no null `malloc`). -/
def AllSucceed (prims : AllocPrims) : Prop :=
  (∀ i sz, prims.mmap_prim i sz ≠ MmapResult.MAP_FAILED) ∧
  (∀ i sz, prims.malloc_prim i sz ≠ none)

/-- `free_block`: skips a descriptor with a null pointer or zero size,
otherwise invokes the primitive matching the origin tag (lines 26-35).
The returned list is the trace of primitive calls it makes. -/
def free_block (block : NativeBlock) : List FreeCall :=
  match block.ptr with
  | none => []
  | some a =>
    if block.size = 0 then []
    else if block.use_mmap then [FreeCall.munmapCall a block.size]
    else [FreeCall.freeCall a]

/-- The pointer obtained for loop index `i` (lines 48-58): even indices call
`mmap` (a `MAP_FAILED` return is converted to null), odd indices call
`malloc`. -/
def resolvePtr (prims : AllocPrims) (i : Nat) (block_size : Nat) : Option Nat :=
  if i % 2 == 0 then
    match prims.mmap_prim i block_size with
    | MmapResult.MAP_FAILED => none
    | MmapResult.addr a => some a
  else
    prims.malloc_prim i block_size

/-- The `for (int i = 0; i < block_count; ++i)` loop of
`allocateNativeBlocks` (lines 47-66): each iteration attempts one block via
`resolvePtr`; on null the block is skipped (`continue`), otherwise the
region is `memset` to 0x5A and a descriptor is appended.  The attempted
primitive call is recorded in the trace `calls`. -/
def allocLoop (prims : AllocPrims) (block_size : Nat) :
    Nat → Nat → Registry → List AllocCall → Registry × List AllocCall
  | 0, _, blocks, calls => (blocks, calls)
  | Nat.succ remaining, i, blocks, calls =>
    let use_mmap := i % 2 == 0
    let calls' := calls ++ [if use_mmap then AllocCall.mmapCall block_size
                            else AllocCall.mallocCall block_size]
    match resolvePtr prims i block_size with
    | none => allocLoop prims block_size remaining (i + 1) blocks calls'
    | some a =>
      allocLoop prims block_size remaining (i + 1)
        (blocks ++ [⟨some a, block_size, use_mmap⟩]) calls'

/-- `Java_..._allocateNativeBlocks` (lines 39-69): non-positive arguments
are a no-op returning the current total; otherwise `block_count` blocks of
`block_size_mb * 1024 * 1024` bytes are attempted and the total after the
call is returned.  Result: (return value, registry after, primitive-call
trace). -/
def allocateNativeBlocks (prims : AllocPrims) (blocks : Registry)
    (block_count block_size_mb : Int) : Int × Registry × List AllocCall :=
  if block_count ≤ 0 ∨ block_size_mb ≤ 0 then
    (Int.ofNat (total_allocated_bytes blocks), blocks, [])
  else
    let block_size := block_size_mb.toNat * 1024 * 1024
    let r := allocLoop prims block_size block_count.toNat 0 blocks []
    (Int.ofNat (total_allocated_bytes r.1), r.1, r.2)

/-- `Java_..._freeAllNativeBlocks` (lines 71-80): snapshots the total,
releases every block through `free_block` in insertion order, clears the
vector and returns the snapshot.  Result: (return value, registry after,
deallocation-call trace). -/
def freeAllNativeBlocks (blocks : Registry) : Int × Registry × List FreeCall :=
  let before := total_allocated_bytes blocks
  let calls := blocks.foldl (fun acc block => acc ++ free_block block) []
  (Int.ofNat before, [], calls)

/-- The scaled megabyte value `round(bytes * 10^6 / 2^20)`, ties to even:
the integer whose digits `std::to_string(bytes / (1024.0 * 1024.0))`
prints (the double value is exact for realistic totals). -/
def mbScaled (bytes : Nat) : Nat :=
  let num := bytes * 1000000
  let den := 1024 * 1024
  let q := num / den
  let r := num % den
  if 2 * r < den then q
  else if den < 2 * r then q + 1
  else if q % 2 == 0 then q else q + 1

/-- Left-pads a fractional part to six digits. -/
def padSix (k : Nat) : String :=
  let s := toString k
  String.mk (List.replicate (6 - s.length) '0') ++ s

/-- Decimal rendering of `bytes / (1024.0 * 1024.0)` with six fractional
digits, as `std::to_string(double)` produces. -/
def formatMb (bytes : Nat) : String :=
  toString (mbScaled bytes / 1000000) ++ "." ++ padSix (mbScaled bytes % 1000000)

/-- `Java_..._getNativeStats` (lines 82-92): renders the three-field report
from the registry; the registry is not modified. -/
def getNativeStats (blocks : Registry) : String × Registry :=
  let bytes := total_allocated_bytes blocks
  let out := "nativeBlocks=" ++ toString blocks.length
      ++ "\nnativeBytes=" ++ toString bytes
      ++ "\nnativeMb=" ++ formatMb bytes
  (out, blocks)

/-- A concrete all-success oracle, used by witnesses and examples. -/
def okPrims : AllocPrims :=
  ⟨fun i _ => MmapResult.addr (i + 1), fun i _ => some (i + 1)⟩

/-- A concrete oracle whose `mmap` always fails and whose `malloc` always
succeeds, used by witnesses for the failure-handling claims. -/
def mmapFailPrims : AllocPrims :=
  ⟨fun _ _ => MmapResult.MAP_FAILED, fun i _ => some (i + 1)⟩

/-! Basic lemmas about the byte total. -/

theorem foldl_size_eq (l : Registry) :
    ∀ a : Nat, l.foldl (fun total block => total + block.size) a
      = a + (l.map NativeBlock.size).sum := by
  induction l with
  | nil => intro a; simp
  | cons b t ih =>
    intro a
    simp only [List.foldl_cons, List.map_cons, List.sum_cons, ih]
    omega

theorem total_eq_sum (l : Registry) :
    total_allocated_bytes l = (l.map NativeBlock.size).sum := by
  simpa using foldl_size_eq l 0

theorem total_append (xs ys : Registry) :
    total_allocated_bytes (xs ++ ys)
      = total_allocated_bytes xs + total_allocated_bytes ys := by
  simp [total_eq_sum]

/-! Characterization of the allocation loop. -/

/-- The descriptors the loop starting at index `i` with `n` iterations
appends, in order: one per successful `resolvePtr`, skipping failures. -/
def allocSpec (prims : AllocPrims) (block_size : Nat) : Nat → Nat → Registry
  | 0, _ => []
  | Nat.succ remaining, i =>
    (match resolvePtr prims i block_size with
     | none => []
     | some a => [⟨some a, block_size, i % 2 == 0⟩])
      ++ allocSpec prims block_size remaining (i + 1)

/-- The primitive calls the loop makes: exactly one per iteration,
alternating by index parity. -/
def callSpec (block_size : Nat) : Nat → Nat → List AllocCall
  | 0, _ => []
  | Nat.succ remaining, i =>
    (if i % 2 == 0 then AllocCall.mmapCall block_size
     else AllocCall.mallocCall block_size)
      :: callSpec block_size remaining (i + 1)

theorem allocLoop_eq (prims : AllocPrims) (bs : Nat) :
    ∀ (n i : Nat) (blocks : Registry) (calls : List AllocCall),
      allocLoop prims bs n i blocks calls
        = (blocks ++ allocSpec prims bs n i, calls ++ callSpec bs n i) := by
  intro n
  induction n with
  | zero => intro i blocks calls; simp [allocLoop, allocSpec, callSpec]
  | succ m ih =>
    intro i blocks calls
    simp only [allocLoop, allocSpec, callSpec]
    cases h : resolvePtr prims i bs <;> simp [ih]

theorem resolvePtr_isSome (prims : AllocPrims) (hok : AllSucceed prims)
    (i bs : Nat) : ∃ a, resolvePtr prims i bs = some a := by
  unfold resolvePtr
  by_cases h : i % 2 == 0
  · simp only [h, if_pos]
    cases hm : prims.mmap_prim i bs with
    | MAP_FAILED => exact absurd hm (hok.1 i bs)
    | addr a => exact ⟨a, rfl⟩
  · simp only [h, if_neg]
    cases hl : prims.malloc_prim i bs with
    | none => exact absurd hl (hok.2 i bs)
    | some a => exact ⟨a, rfl⟩

theorem allocSpec_mem (prims : AllocPrims) (bs : Nat) :
    ∀ (n i : Nat) (b : NativeBlock), b ∈ allocSpec prims bs n i →
      b.ptr ≠ none ∧ b.size = bs := by
  intro n
  induction n with
  | zero => intro i b hb; simp [allocSpec] at hb
  | succ m ih =>
    intro i b hb
    simp only [allocSpec] at hb
    cases h : resolvePtr prims i bs with
    | none =>
      rw [h] at hb; simp only [List.nil_append] at hb
      exact ih (i + 1) b hb
    | some a =>
      rw [h] at hb
      rcases List.mem_append.mp hb with hb | hb
      · rcases List.mem_singleton.mp hb with rfl
        exact ⟨by simp, rfl⟩
      · exact ih (i + 1) b hb

theorem allocSpec_length (prims : AllocPrims) (bs : Nat)
    (hok : AllSucceed prims) :
    ∀ n i : Nat, (allocSpec prims bs n i).length = n := by
  intro n
  induction n with
  | zero => intro i; simp [allocSpec]
  | succ m ih =>
    intro i
    obtain ⟨a, ha⟩ := resolvePtr_isSome prims hok i bs
    simp [allocSpec, ha, ih]

theorem allocSpec_map_size (prims : AllocPrims) (bs : Nat)
    (hok : AllSucceed prims) :
    ∀ n i : Nat, (allocSpec prims bs n i).map NativeBlock.size
      = List.replicate n bs := by
  intro n
  induction n with
  | zero => intro i; simp [allocSpec]
  | succ m ih =>
    intro i
    obtain ⟨a, ha⟩ := resolvePtr_isSome prims hok i bs
    simp [allocSpec, ha, ih, List.replicate_succ]

theorem sum_replicate_nat (n x : Nat) : (List.replicate n x).sum = n * x := by
  induction n with
  | zero => simp
  | succ m ih => simp [List.replicate_succ, ih, Nat.succ_mul]; omega

theorem allocSpec_total (prims : AllocPrims) (bs : Nat)
    (hok : AllSucceed prims) (n i : Nat) :
    total_allocated_bytes (allocSpec prims bs n i) = n * bs := by
  rw [total_eq_sum, allocSpec_map_size prims bs hok, sum_replicate_nat]

theorem allocSpec_map_mmap (prims : AllocPrims) (bs : Nat)
    (hok : AllSucceed prims) :
    ∀ n i : Nat, (allocSpec prims bs n i).map NativeBlock.use_mmap
      = (List.range n).map (fun k => (i + k) % 2 == 0) := by
  intro n
  induction n with
  | zero => intro i; simp [allocSpec]
  | succ m ih =>
    intro i
    obtain ⟨a, ha⟩ := resolvePtr_isSome prims hok i bs
    rw [List.range_succ_eq_map]
    simp only [allocSpec, ha, List.map_cons, List.map_map, List.cons_append,
      List.nil_append, List.map_cons]
    refine congrArg₂ _ (by simp) ?_
    rw [ih (i + 1)]
    refine List.map_congr_left ?_
    intro k _
    simp only [Function.comp]
    congr 2
    omega

theorem range_count_even : ∀ m : Nat,
    ((List.range (2 * m)).filter (fun k => k % 2 == 0)).length = m ∧
    ((List.range (2 * m)).filter (fun k => !(k % 2 == 0))).length = m := by
  intro m
  induction m with
  | zero => simp
  | succ p ih =>
    have h2 : 2 * (p + 1) = (2 * p + 1) + 1 := by ring
    have he : ((2 * p) % 2 == 0) = true := by simp [Nat.mul_mod_right]
    have ho : ((2 * p + 1) % 2 == 0) = false := by
      have h : (2 * p + 1) % 2 = 1 := by omega
      simp [h]
    rw [h2, List.range_succ, List.range_succ]
    simp [List.filter_append, he, ho, ih.1, ih.2]

theorem allocSpec_filter_mmap (prims : AllocPrims) (bs : Nat)
    (hok : AllSucceed prims) (n : Nat) :
    ((allocSpec prims bs n 0).filter (fun b => b.use_mmap)).length
      = ((List.range n).filter (fun k => k % 2 == 0)).length ∧
    ((allocSpec prims bs n 0).filter (fun b => !b.use_mmap)).length
      = ((List.range n).filter (fun k => !(k % 2 == 0))).length := by
  have hmap := allocSpec_map_mmap prims bs hok n 0
  constructor
  · rw [← List.countP_eq_length_filter, ← List.countP_eq_length_filter]
    have h1 : List.countP (fun b => b.use_mmap) (allocSpec prims bs n 0)
        = List.countP (fun x => x)
            ((allocSpec prims bs n 0).map NativeBlock.use_mmap) := by
      rw [List.countP_map]; rfl
    rw [h1, hmap, List.countP_map]
    congr 1
    funext k
    simp
  · rw [← List.countP_eq_length_filter, ← List.countP_eq_length_filter]
    have h1 : List.countP (fun b => !b.use_mmap) (allocSpec prims bs n 0)
        = List.countP (fun x => !x)
            ((allocSpec prims bs n 0).map NativeBlock.use_mmap) := by
      rw [List.countP_map]; rfl
    rw [h1, hmap, List.countP_map]
    congr 1
    funext k
    simp

theorem allocSpec_eq_filterMap (prims : AllocPrims) (bs : Nat) :
    ∀ n i, allocSpec prims bs n i
      = (List.range n).filterMap (fun k =>
          (resolvePtr prims (i + k) bs).map
            (fun a => (⟨some a, bs, (i + k) % 2 == 0⟩ : NativeBlock))) := by
  intro n
  induction n with
  | zero => intro i; simp [allocSpec]
  | succ m ih =>
    intro i
    have hsh : (fun k => (resolvePtr prims (i + (k + 1)) bs).map
          (fun a => (⟨some a, bs, (i + (k + 1)) % 2 == 0⟩ : NativeBlock)))
        = (fun k => (resolvePtr prims ((i + 1) + k) bs).map
          (fun a => (⟨some a, bs, ((i + 1) + k) % 2 == 0⟩ : NativeBlock))) := by
      funext k
      have hik : i + (k + 1) = (i + 1) + k := by omega
      rw [hik]
    rw [List.range_succ_eq_map, List.filterMap_cons, List.filterMap_map]
    have hcomp : ((fun k => (resolvePtr prims (i + k) bs).map
          (fun a => (⟨some a, bs, (i + k) % 2 == 0⟩ : NativeBlock))) ∘ Nat.succ)
        = (fun k => (resolvePtr prims ((i + 1) + k) bs).map
          (fun a => (⟨some a, bs, ((i + 1) + k) % 2 == 0⟩ : NativeBlock))) := by
      rw [← hsh]; rfl
    rw [hcomp, ← ih (i + 1)]
    simp only [Nat.add_zero]
    cases h : resolvePtr prims i bs with
    | none => simp [allocSpec, h]
    | some a => simp [allocSpec, h]

theorem callSpec_length (bs : Nat) : ∀ n i, (callSpec bs n i).length = n := by
  intro n
  induction n with
  | zero => intro i; simp [callSpec]
  | succ m ih => intro i; simp [callSpec, ih]

theorem allocate_pos_eq (prims : AllocPrims) (blocks : Registry)
    (n s : Int) (hn : 0 < n) (hs : 0 < s) :
    allocateNativeBlocks prims blocks n s
      = (Int.ofNat (total_allocated_bytes
            (blocks ++ allocSpec prims (s.toNat * 1024 * 1024) n.toNat 0)),
         blocks ++ allocSpec prims (s.toNat * 1024 * 1024) n.toNat 0,
         callSpec (s.toNat * 1024 * 1024) n.toNat 0) := by
  have hcond : ¬(n ≤ 0 ∨ s ≤ 0) := by omega
  simp only [allocateNativeBlocks, if_neg hcond, allocLoop_eq, List.nil_append]

theorem okPrims_allSucceed : AllSucceed okPrims := by
  constructor <;> intro i sz <;> simp [okPrims]

/-- The registry invariant of the spec: every live descriptor has a
non-null address and a strictly positive size. -/
def RegistryInv (blocks : Registry) : Prop :=
  ∀ b ∈ blocks, b.ptr ≠ none ∧ 0 < b.size

/-- Claim C2: `release_all()` returns the byte total held immediately
before the call (the number `stats()` prints as its byte field), empties
the registry, and a second release (or a release on an empty registry)
returns 0 and keeps it empty. -/
theorem claim_C2_release (blocks : Registry) :
    (freeAllNativeBlocks blocks).1 = Int.ofNat (total_allocated_bytes blocks) ∧
    (∃ v1 v3 : String,
      (getNativeStats blocks).1
        = "nativeBlocks=" ++ v1 ++ "\n"
          ++ "nativeBytes=" ++ toString ((freeAllNativeBlocks blocks).1.toNat)
          ++ "\n" ++ "nativeMb=" ++ v3) ∧
    (freeAllNativeBlocks blocks).2.1 = [] ∧
    (freeAllNativeBlocks ((freeAllNativeBlocks blocks).2.1)).1 = 0 ∧
    (freeAllNativeBlocks ((freeAllNativeBlocks blocks).2.1)).2.1 = [] ∧
    (freeAllNativeBlocks ([] : Registry)).1 = 0 := by
  refine ⟨rfl, ⟨toString blocks.length, formatMb (total_allocated_bytes blocks), ?_⟩,
    rfl, rfl, rfl, rfl⟩
  show "nativeBlocks=" ++ toString blocks.length
      ++ "\nnativeBytes=" ++ toString (total_allocated_bytes blocks)
      ++ "\nnativeMb=" ++ formatMb (total_allocated_bytes blocks) = _
  have htn : (freeAllNativeBlocks blocks).1.toNat
      = total_allocated_bytes blocks := rfl
  rw [htn]
  have h1 : "\nnativeBytes=" = "\n" ++ "nativeBytes=" := by decide
  have h2 : "\nnativeMb=" = "\n" ++ "nativeMb=" := by decide
  rw [h1, h2]
  simp [String.append_assoc]

/-- Claim C3: with a non-positive block count or size, `allocate` performs
no allocation (no primitive call), leaves the registry unchanged and
returns the current byte total. -/
theorem claim_C3_noop (prims : AllocPrims) (blocks : Registry)
    (block_count block_size_mb : Int)
    (h : block_count ≤ 0 ∨ block_size_mb ≤ 0) :
    allocateNativeBlocks prims blocks block_count block_size_mb
      = (Int.ofNat (total_allocated_bytes blocks), blocks, []) := by
  unfold allocateNativeBlocks
  rw [if_pos h]

theorem claim_C3_witness :
    ((0 : Int) ≤ 0 ∨ (5 : Int) ≤ 0) ∧
    allocateNativeBlocks okPrims
        [(⟨some 1, 7, true⟩ : NativeBlock)] 0 5
      = (Int.ofNat (total_allocated_bytes [(⟨some 1, 7, true⟩ : NativeBlock)]),
         [(⟨some 1, 7, true⟩ : NativeBlock)], []) :=
  ⟨Or.inl (by decide),
   claim_C3_noop okPrims [⟨some 1, 7, true⟩] 0 5 (Or.inl (by decide))⟩

/-- Claim C5: every operation preserves the registry invariant: live
descriptors always have a non-null address and positive size (a failed
allocation is never appended). -/
theorem claim_C5_invariant (prims : AllocPrims) (blocks : Registry)
    (hinv : RegistryInv blocks) (n s : Int) :
    RegistryInv (allocateNativeBlocks prims blocks n s).2.1 ∧
    RegistryInv (freeAllNativeBlocks blocks).2.1 ∧
    RegistryInv (getNativeStats blocks).2 := by
  refine ⟨?_, ?_, hinv⟩
  · by_cases h : n ≤ 0 ∨ s ≤ 0
    · unfold allocateNativeBlocks
      rw [if_pos h]
      exact hinv
    · have hn : 0 < n := by omega
      have hs : 0 < s := by omega
      rw [allocate_pos_eq prims blocks n s hn hs]
      intro b hb
      rcases List.mem_append.mp hb with hb | hb
      · exact hinv b hb
      · obtain ⟨hptr, hsz⟩ :=
          allocSpec_mem prims (s.toNat * 1024 * 1024) n.toNat 0 b hb
        refine ⟨hptr, ?_⟩
        have hs1 : 1 ≤ s.toNat := by omega
        have : 0 < s.toNat * 1024 * 1024 := by positivity
        omega
  · intro b hb
    simp [freeAllNativeBlocks] at hb

theorem claim_C5_witness :
    RegistryInv [] ∧
    (RegistryInv (allocateNativeBlocks okPrims [] 1 1).2.1 ∧
     RegistryInv (freeAllNativeBlocks []).2.1 ∧
     RegistryInv (getNativeStats []).2) :=
  ⟨by intro b hb; simp at hb,
   claim_C5_invariant okPrims [] (by intro b hb; simp at hb) 1 1⟩

/-- Claim C9: the release path skips a descriptor whose address is null or
whose size is zero without calling any primitive, and for a valid
descriptor invokes exactly the primitive matching the origin tag, with the
descriptor's address (and its size for the page-mapped origin). -/
theorem claim_C9_release_safety (block : NativeBlock) :
    ((block.ptr = none ∨ block.size = 0) → free_block block = []) ∧
    (∀ a, block.ptr = some a → block.size ≠ 0 →
      free_block block
        = (if block.use_mmap then [FreeCall.munmapCall a block.size]
           else [FreeCall.freeCall a])) := by
  obtain ⟨p, sz, um⟩ := block
  constructor
  · rintro (h | h)
    · simp only at h
      rw [h]
      rfl
    · simp only at h
      cases p with
      | none => rfl
      | some a => simp [free_block, h]
  · intro a ha hsz
    simp only at ha hsz
    rw [ha]
    simp [free_block, hsz]

theorem claim_C9_witness :
    free_block ⟨none, 5, true⟩ = [] ∧
    free_block ⟨some 7, 0, true⟩ = [] ∧
    free_block ⟨some 9, 4, true⟩ = [FreeCall.munmapCall 9 4] ∧
    free_block ⟨some 7, 3, false⟩ = [FreeCall.freeCall 7] := by
  refine ⟨(claim_C9_release_safety ⟨none, 5, true⟩).1 (Or.inl rfl),
    (claim_C9_release_safety ⟨some 7, 0, true⟩).1 (Or.inr rfl), ?_, ?_⟩
  · have h := (claim_C9_release_safety ⟨some 9, 4, true⟩).2 9 rfl (by decide)
    simpa using h
  · have h := (claim_C9_release_safety ⟨some 7, 3, false⟩).2 7 rfl (by decide)
    simpa using h

/-- Claim C1: from an empty registry with all allocations succeeding,
`allocate(n, s)` appends exactly `n` descriptors of `s * 1024 * 1024` bytes
each, returns `n * s * 1024 * 1024`, and a subsequent `stats()` reports
block count `n` and byte total `n * s * 1024 * 1024`. -/
theorem claim_C1_conservation (prims : AllocPrims) (hok : AllSucceed prims)
    (n s : Int) (hn : 0 < n) (hs : 0 < s) :
    (allocateNativeBlocks prims [] n s).2.1.length = n.toNat ∧
    (∀ b ∈ (allocateNativeBlocks prims [] n s).2.1,
      b.size = s.toNat * 1024 * 1024) ∧
    (allocateNativeBlocks prims [] n s).1 = n * s * 1024 * 1024 ∧
    (getNativeStats (allocateNativeBlocks prims [] n s).2.1).1
      = "nativeBlocks=" ++ toString n.toNat
        ++ "\nnativeBytes=" ++ toString ((n * s * 1024 * 1024).toNat)
        ++ "\nnativeMb=" ++ formatMb ((n * s * 1024 * 1024).toNat) := by
  rw [allocate_pos_eq prims [] n s hn hs]
  dsimp only
  simp only [List.nil_append]
  set bs := s.toNat * 1024 * 1024 with hbs
  have hlen := allocSpec_length prims bs hok n.toNat 0
  have htot := allocSpec_total prims bs hok n.toNat 0
  have hn' : ((n.toNat : Int)) = n := Int.toNat_of_nonneg hn.le
  have hs' : ((s.toNat : Int)) = s := Int.toNat_of_nonneg hs.le
  have hEq : n * s * 1024 * 1024 = ((n.toNat * bs : Nat) : Int) := by
    rw [hbs]
    push_cast [hn', hs']
    ring
  have hN : (n * s * 1024 * 1024).toNat = n.toNat * bs := by
    rw [hEq]
    exact Int.toNat_natCast _
  refine ⟨hlen, ?_, ?_, ?_⟩
  · intro b hb
    exact (allocSpec_mem prims bs n.toNat 0 b hb).2
  · rw [htot]
    exact_mod_cast hEq.symm
  · show "nativeBlocks=" ++ toString (allocSpec prims bs n.toNat 0).length
        ++ "\nnativeBytes="
        ++ toString (total_allocated_bytes (allocSpec prims bs n.toNat 0))
        ++ "\nnativeMb="
        ++ formatMb (total_allocated_bytes (allocSpec prims bs n.toNat 0)) = _
    rw [hlen, htot, hN]

theorem claim_C1_witness :
    AllSucceed okPrims ∧ (0 : Int) < 3 ∧ (0 : Int) < 2 ∧
    ((allocateNativeBlocks okPrims [] 3 2).2.1.length = (3 : Int).toNat ∧
     (∀ b ∈ (allocateNativeBlocks okPrims [] 3 2).2.1,
       b.size = (2 : Int).toNat * 1024 * 1024) ∧
     (allocateNativeBlocks okPrims [] 3 2).1 = 3 * 2 * 1024 * 1024 ∧
     (getNativeStats (allocateNativeBlocks okPrims [] 3 2).2.1).1
       = "nativeBlocks=" ++ toString (3 : Int).toNat
         ++ "\nnativeBytes=" ++ toString (((3 : Int) * 2 * 1024 * 1024).toNat)
         ++ "\nnativeMb=" ++ formatMb (((3 : Int) * 2 * 1024 * 1024).toNat)) :=
  ⟨okPrims_allSucceed, by decide, by decide,
   claim_C1_conservation okPrims okPrims_allSucceed 3 2 (by decide) (by decide)⟩

/-- Claim C4: within one `allocate(N, s)` call the appended descriptors'
origin tags alternate by block index (even index: page-mapped, odd index:
heap), and for even `N` with all allocations succeeding exactly `N / 2`
descriptors carry each origin tag. -/
theorem claim_C4_alternation (prims : AllocPrims) (hok : AllSucceed prims)
    (blocks : Registry) (n s : Int) (hn : 0 < n) (hs : 0 < s) :
    (((allocateNativeBlocks prims blocks n s).2.1.drop blocks.length).map
        NativeBlock.use_mmap
      = (List.range n.toNat).map (fun j => j % 2 == 0)) ∧
    (n.toNat % 2 = 0 →
      (((allocateNativeBlocks prims blocks n s).2.1.drop blocks.length).filter
          (fun b => b.use_mmap)).length = n.toNat / 2 ∧
      (((allocateNativeBlocks prims blocks n s).2.1.drop blocks.length).filter
          (fun b => !b.use_mmap)).length = n.toNat / 2) := by
  rw [allocate_pos_eq prims blocks n s hn hs]
  dsimp only
  set bs := s.toNat * 1024 * 1024
  have hdrop : (blocks ++ allocSpec prims bs n.toNat 0).drop blocks.length
      = allocSpec prims bs n.toNat 0 := List.drop_left blocks _
  rw [hdrop]
  constructor
  · rw [allocSpec_map_mmap prims bs hok n.toNat 0]
    simp
  · intro heven
    obtain ⟨m, hm⟩ : ∃ m, n.toNat = 2 * m := ⟨n.toNat / 2, by omega⟩
    constructor
    · rw [(allocSpec_filter_mmap prims bs hok n.toNat).1, hm,
        (range_count_even m).1]
      omega
    · rw [(allocSpec_filter_mmap prims bs hok n.toNat).2, hm,
        (range_count_even m).2]
      omega

theorem claim_C4_witness :
    AllSucceed okPrims ∧ (0 : Int) < 4 ∧ (0 : Int) < 1 ∧
    ((((allocateNativeBlocks okPrims [] 4 1).2.1.drop
          (List.length ([] : Registry))).map NativeBlock.use_mmap
       = (List.range (4 : Int).toNat).map (fun j => j % 2 == 0)) ∧
     ((4 : Int).toNat % 2 = 0 →
       (((allocateNativeBlocks okPrims [] 4 1).2.1.drop
           (List.length ([] : Registry))).filter
           (fun b => b.use_mmap)).length = (4 : Int).toNat / 2 ∧
       (((allocateNativeBlocks okPrims [] 4 1).2.1.drop
           (List.length ([] : Registry))).filter
           (fun b => !b.use_mmap)).length = (4 : Int).toNat / 2)) :=
  ⟨okPrims_allSucceed, by decide, by decide,
   claim_C4_alternation okPrims okPrims_allSucceed [] 4 1 (by decide) (by decide)⟩

/-- Claim C6: a failed underlying allocation (a `MAP_FAILED` converted to
null, or a null `malloc`) only skips that block: the call still attempts
every index (one primitive call each), appends exactly the successful
blocks in index order, and returns the byte total actually held after the
call; no out-of-band error exists. -/
theorem claim_C6_failure_skip (prims : AllocPrims) (blocks : Registry)
    (n s : Int) (hn : 0 < n) (hs : 0 < s) :
    (allocateNativeBlocks prims blocks n s).2.1
      = blocks ++ (List.range n.toNat).filterMap (fun i =>
          (resolvePtr prims i (s.toNat * 1024 * 1024)).map
            (fun a => (⟨some a, s.toNat * 1024 * 1024, i % 2 == 0⟩
              : NativeBlock))) ∧
    (allocateNativeBlocks prims blocks n s).1
      = Int.ofNat (total_allocated_bytes
          (allocateNativeBlocks prims blocks n s).2.1) ∧
    (allocateNativeBlocks prims blocks n s).2.2.length = n.toNat := by
  rw [allocate_pos_eq prims blocks n s hn hs]
  dsimp only
  refine ⟨?_, rfl, callSpec_length _ _ _⟩
  rw [allocSpec_eq_filterMap]
  simp only [Nat.zero_add]

theorem claim_C6_witness :
    (0 : Int) < 3 ∧ (0 : Int) < 1 ∧
    ((allocateNativeBlocks mmapFailPrims [] 3 1).2.1
       = [] ++ (List.range (3 : Int).toNat).filterMap (fun i =>
           (resolvePtr mmapFailPrims i ((1 : Int).toNat * 1024 * 1024)).map
             (fun a => (⟨some a, (1 : Int).toNat * 1024 * 1024, i % 2 == 0⟩
               : NativeBlock))) ∧
     (allocateNativeBlocks mmapFailPrims [] 3 1).1
       = Int.ofNat (total_allocated_bytes
           (allocateNativeBlocks mmapFailPrims [] 3 1).2.1) ∧
     (allocateNativeBlocks mmapFailPrims [] 3 1).2.2.length = (3 : Int).toNat) ∧
    (allocateNativeBlocks mmapFailPrims [] 3 1).2.1
      = [(⟨some 2, 1048576, false⟩ : NativeBlock)] ∧
    (allocateNativeBlocks mmapFailPrims [] 3 1).1 = 1048576 :=
  ⟨by decide, by decide,
   claim_C6_failure_skip mmapFailPrims [] 3 1 (by decide) (by decide),
   by decide, by decide⟩

/-- Claim C7: `stats()` renders exactly three labeled fields in fixed
order (block count, byte total, megabytes with six fractional digits),
newline-separated with `=` between name and value; the byte total is the
sum of the live descriptor sizes, the registry is not mutated, and after
`allocate(4, 1)` from empty the string is
`nativeBlocks=4\nnativeBytes=4194304\nnativeMb=4.000000`. -/
theorem claim_C7_stats (blocks : Registry) :
    (∃ v1 v2 v3 : String,
      (getNativeStats blocks).1
        = "nativeBlocks=" ++ v1 ++ "\n" ++ "nativeBytes=" ++ v2 ++ "\n"
          ++ "nativeMb=" ++ v3 ∧
      v1 = toString blocks.length ∧
      v2 = toString ((blocks.map NativeBlock.size).sum) ∧
      v3 = formatMb ((blocks.map NativeBlock.size).sum)) ∧
    (getNativeStats blocks).2 = blocks ∧
    (getNativeStats (allocateNativeBlocks okPrims [] 4 1).2.1).1
      = "nativeBlocks=4\nnativeBytes=4194304\nnativeMb=4.000000" := by
  refine ⟨⟨toString blocks.length, toString (total_allocated_bytes blocks),
    formatMb (total_allocated_bytes blocks), ?_, rfl, ?_, ?_⟩, rfl, by decide⟩
  · show "nativeBlocks=" ++ toString blocks.length
        ++ "\nnativeBytes=" ++ toString (total_allocated_bytes blocks)
        ++ "\nnativeMb=" ++ formatMb (total_allocated_bytes blocks) = _
    have h1 : "\nnativeBytes=" = "\n" ++ "nativeBytes=" := by decide
    have h2 : "\nnativeMb=" = "\n" ++ "nativeMb=" := by decide
    rw [h1, h2]
    simp [String.append_assoc]
  · rw [total_eq_sum]
  · rw [total_eq_sum]

/-- Claim C8: in the absence of allocation failures, `allocate(a, s)` then
`allocate(b, s)` from any starting state gives the same block count, byte
total and final return value as a single `allocate(a + b, s)`. -/
theorem claim_C8_additivity (prims : AllocPrims) (hok : AllSucceed prims)
    (blocks : Registry) (a b s : Int) (ha : 0 < a) (hb : 0 < b)
    (hs : 0 < s) :
    ((allocateNativeBlocks prims
        (allocateNativeBlocks prims blocks a s).2.1 b s).2.1.length
      = (allocateNativeBlocks prims blocks (a + b) s).2.1.length) ∧
    (total_allocated_bytes (allocateNativeBlocks prims
        (allocateNativeBlocks prims blocks a s).2.1 b s).2.1
      = total_allocated_bytes
          (allocateNativeBlocks prims blocks (a + b) s).2.1) ∧
    ((allocateNativeBlocks prims
        (allocateNativeBlocks prims blocks a s).2.1 b s).1
      = (allocateNativeBlocks prims blocks (a + b) s).1) := by
  have hab : 0 < a + b := by omega
  rw [allocate_pos_eq prims blocks a s ha hs]
  dsimp only
  rw [allocate_pos_eq prims _ b s hb hs,
    allocate_pos_eq prims blocks (a + b) s hab hs]
  dsimp only
  set bs := s.toNat * 1024 * 1024
  have h1 := allocSpec_length prims bs hok a.toNat 0
  have h2 := allocSpec_length prims bs hok b.toNat 0
  have h3 := allocSpec_length prims bs hok (a + b).toNat 0
  have t1 := allocSpec_total prims bs hok a.toNat 0
  have t2 := allocSpec_total prims bs hok b.toNat 0
  have t3 := allocSpec_total prims bs hok (a + b).toNat 0
  have htn : (a + b).toNat = a.toNat + b.toNat := by omega
  have hmul : (a.toNat + b.toNat) * bs = a.toNat * bs + b.toNat * bs :=
    Nat.add_mul _ _ _
  have htotEq : total_allocated_bytes
        ((blocks ++ allocSpec prims bs a.toNat 0) ++ allocSpec prims bs b.toNat 0)
      = total_allocated_bytes (blocks ++ allocSpec prims bs (a + b).toNat 0) := by
    rw [total_append, total_append, total_append, t1, t2, t3, htn, hmul]
    omega
  refine ⟨?_, htotEq, ?_⟩
  · simp only [List.length_append, h1, h2, h3]
    omega
  · rw [htotEq]

theorem claim_C8_witness :
    AllSucceed okPrims ∧ (0 : Int) < 1 ∧ (0 : Int) < 2 ∧ (0 : Int) < 1 ∧
    (((allocateNativeBlocks okPrims
        (allocateNativeBlocks okPrims [] 1 1).2.1 2 1).2.1.length
      = (allocateNativeBlocks okPrims [] (1 + 2) 1).2.1.length) ∧
    (total_allocated_bytes (allocateNativeBlocks okPrims
        (allocateNativeBlocks okPrims [] 1 1).2.1 2 1).2.1
      = total_allocated_bytes
          (allocateNativeBlocks okPrims [] (1 + 2) 1).2.1) ∧
    ((allocateNativeBlocks okPrims
        (allocateNativeBlocks okPrims [] 1 1).2.1 2 1).1
      = (allocateNativeBlocks okPrims [] (1 + 2) 1).1)) :=
  ⟨okPrims_allSucceed, by decide, by decide, by decide,
   claim_C8_additivity okPrims okPrims_allSucceed [] 1 2 1
     (by decide) (by decide) (by decide)⟩

/-- Claim C10 (implicit): the origin-selection index restarts at 0 on
every `allocate` call, so the first appended block of any call is
page-mapped; two successive `allocate(1, s)` calls append two page-mapped
descriptors, while a single `allocate(2, s)` appends one page-mapped and
one heap descriptor. -/
theorem claim_C10_index_restart (prims : AllocPrims) (hok : AllSucceed prims)
    (blocks : Registry) (n s : Int) (hn : 0 < n) (hs : 0 < s) :
    ((((allocateNativeBlocks prims blocks n s).2.1.drop blocks.length).map
        NativeBlock.use_mmap).head? = some true) ∧
    (((allocateNativeBlocks prims
          (allocateNativeBlocks prims blocks 1 s).2.1 1 s).2.1.drop
        blocks.length).map NativeBlock.use_mmap = [true, true]) ∧
    (((allocateNativeBlocks prims blocks 2 s).2.1.drop blocks.length).map
        NativeBlock.use_mmap = [true, false]) := by
  have h01 : (0 : Int) < 1 := by omega
  have h02 : (0 : Int) < 2 := by omega
  set bs := s.toNat * 1024 * 1024 with hbs
  refine ⟨?_, ?_, ?_⟩
  · rw [allocate_pos_eq prims blocks n s hn hs]
    dsimp only
    rw [List.drop_left blocks _, allocSpec_map_mmap prims bs hok n.toNat 0]
    obtain ⟨m, hm⟩ : ∃ m, n.toNat = m + 1 := ⟨n.toNat - 1, by omega⟩
    rw [hm, List.range_succ_eq_map]
    simp
  · rw [allocate_pos_eq prims blocks 1 s h01 hs]
    dsimp only
    rw [allocate_pos_eq prims _ 1 s h01 hs]
    dsimp only
    rw [List.append_assoc, List.drop_left blocks _, List.map_append,
      allocSpec_map_mmap prims bs hok (1 : Int).toNat 0]
    simp only [Nat.zero_add]
    decide
  · rw [allocate_pos_eq prims blocks 2 s h02 hs]
    dsimp only
    rw [List.drop_left blocks _, allocSpec_map_mmap prims bs hok (2 : Int).toNat 0]
    decide

theorem claim_C10_witness :
    AllSucceed okPrims ∧ (0 : Int) < 2 ∧ (0 : Int) < 1 ∧
    (((((allocateNativeBlocks okPrims [] 2 1).2.1.drop
          (List.length ([] : Registry))).map NativeBlock.use_mmap).head?
        = some true) ∧
     (((allocateNativeBlocks okPrims
           (allocateNativeBlocks okPrims [] 1 1).2.1 1 1).2.1.drop
         (List.length ([] : Registry))).map NativeBlock.use_mmap
        = [true, true]) ∧
     (((allocateNativeBlocks okPrims [] 2 1).2.1.drop
         (List.length ([] : Registry))).map NativeBlock.use_mmap
        = [true, false])) :=
  ⟨okPrims_allSucceed, by decide, by decide,
   claim_C10_index_restart okPrims okPrims_allSucceed [] 2 1
     (by decide) (by decide)⟩
